/-
  Verification of the pijul-clone core against its specification.

  Shallow embedding of the unrecord engine (src/libpijul/src/unrecord/mod.rs),
  the alive-graph retrieval (src/libpijul/src/alive/retrieve.rs), the tag
  subsystem (src/libpijul/src/tag.rs) and the change-file reader
  (src/libpijul/src/change/change_file.rs).

  Machine integers (u64, usize) are modelled as Nat: none of the verified
  paths perform wrapping arithmetic.  Fallible Rust code (`Result`,
  `?`-propagation, panicking `unwrap`/`assert!`) is modelled with
  `Except`/`Option`, where `none`/`error` covers both error returns and
  panics, so `some`/`ok` is exactly "successful return".

  Primitives of the pristine layer (B-tree maps, `find_block`,
  `iter_adjacent`, `is_alive`) are not under `src/`; they are modelled from
  the spec (sections 3, 4.1 and 4.2) and are marked as such below.
-/
import Mathlib

set_option maxRecDepth 4000

deriving instance DecidableEq for Except

namespace Pijul

/-! ## Primitive identifiers (spec section 3) -/

/-- `ChangeId`: opaque local identifier of a patch; `0` plays the role of
the distinguished `ROOT` value. -/
abbrev ChangeId := Nat

/-- `Hash`: global content address of a patch. -/
abbrev Hash := Nat

/-- `Merkle`: global content address of a channel state. -/
abbrev Merkle := Nat

/-- Timestamps recorded in the `changes`/`revchanges` maps. -/
abbrev Timestamp := Nat

/-- `Position = (ChangeId, u64)`: a byte offset in the output of a change. -/
structure Pos where
  change : ChangeId
  pos : Nat
deriving DecidableEq, Repr

/-- `Vertex = (ChangeId, start, end)`: a half-open byte interval. -/
structure V where
  change : ChangeId
  start : Nat
  end_ : Nat
deriving DecidableEq, Repr

/-- `Position<Option<Hash>>`, as used for the `inode` field of atoms. -/
structure OPos where
  change : Option Hash
  pos : Nat
deriving DecidableEq, Repr

/-- The five edge-flag bits `{BLOCK, FOLDER, PSEUDO, DELETED, PARENT}`. -/
structure EdgeFlags where
  block : Bool := false
  folder : Bool := false
  pseudo : Bool := false
  deleted : Bool := false
  parent : Bool := false
deriving DecidableEq, Repr

/-- The numeric value of a flag set, with the bit assignment of the source
(`BLOCK = 1`, `FOLDER = 2`, `PSEUDO = 4`, `DELETED = 8`, `PARENT = 16`):
the B-tree stores edges ordered by this byte. -/
def EdgeFlags.bits (f : EdgeFlags) : Nat :=
  (if f.block then 1 else 0) + (if f.folder then 2 else 0) +
  (if f.pseudo then 4 else 0) + (if f.deleted then 8 else 0) +
  (if f.parent then 16 else 0)

/-- `Edge = (flags, dest, introduced_by)`. -/
structure Edge where
  flag : EdgeFlags
  dest : Pos
  introduced_by : ChangeId
deriving DecidableEq, Repr

/-- Association-list lookup, the denotation of a B-tree `get(k, None)`:
the first value bound to `k`. -/
def lookupA {α β : Type} [DecidableEq α] (l : List (α × β)) (k : α) : Option β :=
  (l.find? (fun x => decide (x.1 = k))).map (·.2)

/-- Modelled from the spec: the pristine-layer graph primitives, which are
not under `src/`.  `findBlock`/`findBlockEnd` are the `find_block` /
`find_block_end` lookups (`none` models their error return), and `adj v`
is the full adjacency list of `v` (`iter_adj_all`), kept in the storage
order of the graph B-tree (spec section 4.1: iteration order equals key
order). -/
structure PGraph where
  findBlock : Pos → Option V
  findBlockEnd : Pos → Option V
  adj : V → List Edge

/-- Modelled from the spec: `iter_adjacent` of the pristine layer (not
under `src/`).  Per the spec's iteration contract (section 4.1,
`iter_from(k)` yields the first key `≥ k`, iteration in key order) it
yields exactly the adjacent edges whose flag byte lies in the numeric
range `[min, max]`. -/
def iter_adjacent (adj : List Edge) (min max : Nat) : List Edge :=
  adj.filter (fun e => decide (min ≤ e.flag.bits) && decide (e.flag.bits ≤ max))

/-- Modelled from the spec: `iter_alive_children` of the pristine layer
(not under `src/`): adjacency restricted to flags `≤ BLOCK|PSEUDO`
(numeric value 5), i.e. the non-parent, non-deleted, non-folder edges. -/
def iter_alive_children (adj : List Edge) : List Edge :=
  iter_adjacent adj 0 5

/-- Modelled from the spec: `is_alive` of the pristine layer (not under
`src/`).  Spec I5: "A vertex is alive ⇔ it has at least one incoming
non-PARENT, non-DELETED edge or it is `ROOT_VERTEX`".  Incoming edges are
stored in the vertex's adjacency with the `PARENT` bit set (spec section
3, edge semantics), so the check scans for a stored parent edge without
`DELETED`. -/
def is_alive (adj : List Edge) (v : V) : Bool :=
  decide (v = ⟨0, 0, 0⟩) || adj.any (fun e => e.flag.parent && !e.flag.deleted)

/-! ## Tag files (src/libpijul/src/tag.rs) -/

/-- `DbOffsets` (tag.rs:26-37). -/
structure DbOffsets where
  internal : Nat := 0
  external : Nat := 0
  graph : Nat := 0
  changes : Nat := 0
  revchanges : Nat := 0
  states : Nat := 0
  tags : Nat := 0
  apply_counter : Nat := 0
  size : Nat := 0
deriving DecidableEq, Repr

/-- `FileHeader` (tag.rs:15-24). -/
structure FileHeader where
  version : Nat
  header : Nat
  channel : Nat
  unhashed : Nat
  total : Nat
  offsets : DbOffsets
  state : Merkle
deriving DecidableEq, Repr

/-- The constructors of `TagError` (tag.rs:44-62) reachable in the
modelled paths.  `bincodeDe` is the `BincodeDe` ("Tag file is corrupt")
case. -/
inductive TagError where
  | bincodeDe
  | sync
  | wrongHash (expected got : Merkle)
deriving DecidableEq, Repr

/-- The change header payload deserialised by `read_short`; its contents
are irrelevant here. -/
abbrev ChangeHeader := Nat

/-- `OpenTagFile::open` (tag.rs:77-90), starting from the result of the
`FileHeader` deserialisation (`parsed = none` models a `BincodeDe`
failure; the preceding `File::open`/`read_exact` I/O errors are outside
the model).  On success the open file is represented by its header. -/
def OpenTagFile.open_ (parsed : Option FileHeader) (expected : Merkle) :
    Except TagError FileHeader :=
  match parsed with
  | none => .error .bincodeDe
  | some header =>
    if header.state = expected then .ok header
    else .error (.wrongHash expected header.state)

/-- `read_short` (tag.rs:127-145).  `parsed` is the result of the
`FileHeader` deserialisation and `chdrAt off` the result of deserialising
a `ChangeHeader` at file offset `off` (`none` models a `BincodeDe`
failure of that second deserialisation). -/
def read_short (parsed : Option FileHeader) (chdrAt : Nat → Option ChangeHeader)
    (expected : Merkle) : Except TagError ChangeHeader :=
  match parsed with
  | none => .error .bincodeDe
  | some header =>
    if header.state = expected then
      match chdrAt header.header with
      | some ch => .ok ch
      | none => .error .bincodeDe
    else .error (.wrongHash expected header.state)

/-! ## Channels and the unrecord entry point (unrecord/mod.rs:64-155) -/

/-- A channel, restricted to the maps the unrecord entry point touches:
`changes : ChangeId → timestamp`, `revchanges : timestamp → ChangeId`
(the state Merkle is irrelevant here), and `tags : timestamp → (Merkle,
Merkle)` (spec section 3).  The graph and tree parts are handled by the
`unapply` stage, which the entry-point model takes as a parameter. -/
structure Channel where
  name : String
  changes : List (ChangeId × Timestamp)
  revchanges : List (Timestamp × ChangeId)
  tags : List (Timestamp × (Merkle × Merkle))
deriving DecidableEq, Repr

/-- The pristine state seen by `unrecord`: the cross-channel maps
(`internal`, `external`, `dep`, `revdep`, all multimaps sorted by key)
plus the current channel and the other channels of the pristine. -/
structure State where
  internal : List (Hash × ChangeId)
  external : List (ChangeId × Hash)
  dep : List (ChangeId × ChangeId)
  revdep : List (ChangeId × ChangeId)
  current : Channel
  others : List Channel
deriving DecidableEq, Repr

/-- The `UnrecordError` constructors (unrecord/mod.rs:10-35) reachable in
the modelled paths.  `changestore` covers `Changestore` errors,
`unapplyFailed` stands for any error propagated out of `unapply`, and
`panicked` models a failed `assert!`/`unwrap` (a Rust panic, hence not a
successful return). -/
inductive UnrecordError where
  | changestore
  | changeNotInChannel (hash : ChangeId)
  | changeIsDependedUpon (change_id dependent : ChangeId)
  | unapplyFailed
  | panicked
deriving DecidableEq, Repr

/-- The serialised patch body, restricted to what the entry point reads:
its dependency list (`change.dependencies`). -/
structure Change where
  dependencies : List Hash
deriving DecidableEq, Repr

/-- The revdep scan of `del_channel_changes` (unrecord/mod.rs:116-129):
`iter_revdep(&change_id)` positions a cursor on the first key `≥
change_id` and the loop breaks as soon as the key exceeds `change_id`, so
on a key-sorted multimap it visits exactly the values bound to
`change_id`. -/
def iter_revdep (revdep : List (ChangeId × ChangeId)) (change_id : ChangeId) :
    List ChangeId :=
  ((revdep.dropWhile (fun x => decide (x.1 < change_id))).takeWhile
    (fun x => decide (x.1 = change_id))).map (·.2)

/-- Modelled from the spec: `ChannelMutTxnT::del_changes` of the pristine
layer (not under `src/`); spec section 4.3 step 4: "Remove the change
from channel maps: `changes`, `revchanges` (via its timestamp)". -/
def del_changes (ch : Channel) (change_id : ChangeId) (ts : Timestamp) : Channel :=
  { ch with
    changes := ch.changes.filter (fun x => !(decide (x.1 = change_id) && decide (x.2 = ts))),
    revchanges := ch.revchanges.filter (fun x => !decide (x.1 = ts)) }

/-- Modelled from the spec: `del_tags` of the pristine layer (not under
`src/`); spec section 4.3 step 4: remove the `tags` entry at the change's
timestamp. -/
def del_tags (ch : Channel) (ts : Timestamp) : Channel :=
  { ch with tags := ch.tags.filter (fun x => !decide (x.1 = ts)) }

/-- `del_channel_changes` (unrecord/mod.rs:102-137): look up the change's
timestamp in the channel (absent ⇒ `ChangeNotInChannel`), then scan
`revdep[change_id]` for a dependent still present in the channel (found ⇒
`ChangeIsDependedUpon`), then remove the change from `changes`,
`revchanges` and `tags`. -/
def del_channel_changes (revdep : List (ChangeId × ChangeId)) (ch : Channel)
    (change_id : ChangeId) : Except UnrecordError Channel :=
  match lookupA ch.changes change_id with
  | none => .error (.changeNotInChannel change_id)
  | some timestamp =>
    match (iter_revdep revdep change_id).find?
        (fun d => (lookupA ch.changes d).isSome) with
    | some d => .error (.changeIsDependedUpon change_id d)
    | none => .ok (del_tags (del_changes ch change_id timestamp) timestamp)

/-- `unused_in_other_channels` (unrecord/mod.rs:139-155): scan every
channel, skipping those whose name equals the current channel's name, and
report whether none of them has the change in its `changes` map. -/
def unused_in_other_channels (st : State) (change_id : ChangeId) : Bool :=
  st.others.all (fun br =>
    decide (br.name = st.current.name) || (lookupA br.changes change_id).isNone)

/-- The purge loop of `unrecord` (unrecord/mod.rs:92-95): for each
dependency of the unrecorded change, `get_internal(&dep)?.unwrap()` (a
missing entry panics) and delete the `(dep, change_id)` pair from
`revdep`. -/
def del_revdeps (internal : List (Hash × ChangeId)) (change_id : ChangeId) :
    List Hash → List (ChangeId × ChangeId) → Option (List (ChangeId × ChangeId))
  | [], rd => some rd
  | d :: ds, rd =>
    match lookupA internal d with
    | none => none
    | some di =>
      del_revdeps internal change_id ds
        (rd.filter (fun x => !(decide (x.1 = di) && decide (x.2 = change_id))))

/-- `unrecord` (unrecord/mod.rs:64-100).  `getChange h` models
`changes.get_change(&h)` (the change store), and `ua` the whole `unapply`
stage (unrecord/mod.rs:157-273), which only touches the current channel's
graph/tree state, never the cross-channel maps. -/
def unrecord (getChange : Hash → Option Change)
    (ua : Channel → Except UnrecordError Channel)
    (st : State) (hash : Hash) : Except UnrecordError (Bool × State) :=
  match lookupA st.internal hash with
  | none => .ok (false, st)
  | some change_id =>
    let unused := unused_in_other_channels st change_id
    match del_channel_changes st.revdep st.current change_id with
    | .error e => .error e
    | .ok cur =>
      match getChange hash with
      | none => .error .changestore
      | some change =>
        match ua cur with
        | .error e => .error e
        | .ok cur =>
          let st := { st with current := cur }
          if unused then
            if (lookupA st.revdep change_id).isSome then .error .panicked
            else
              let st := { st with
                dep := st.dep.filter (fun x => !decide (x.1 = change_id)),
                external := st.external.filter (fun x => !decide (x.1 = change_id)),
                internal := st.internal.filter (fun x => !decide (x.1 = hash)) }
              match del_revdeps st.internal change_id change.dependencies st.revdep with
              | none => .error .panicked
              | some rd => .ok (false, { st with revdep := rd })
          else .ok (true, st)

/-! ## The `unapply_edges` knowledge oracle (unrecord/mod.rs:408-438) -/

/-- The knowledge-oracle closure passed by `unapply_edges` to
`apply::put_newedge` (unrecord/mod.rs:419-438).  `hash` is the external
hash of the change being unrecorded (`txn.get_external(&change_id)`),
`previous` the edge's previous flags, `introduced_by` the edge's
`introduced_by` field (`none` meaning the unrecorded change itself), and
`knows a b` models `changes.knows(&a, &b).unwrap()`. -/
def unapply_edges_knows (knows : Hash → Hash → Bool) (hash : Hash)
    (previous : EdgeFlags) (introduced_by : Option Hash) (h : Hash) : Bool :=
  if h = hash then
    true
  else if previous.deleted then
    knows (introduced_by.getD hash) h
  else
    true

/-! ## The unrecord workspace (unrecord/mod.rs:275-286) -/

/-- The reusable unrecord `Workspace` (unrecord/mod.rs:275-286).  The
hash maps `up`/`down` are modelled as key-replacing association lists,
the hash set `parents` as a duplicate-free list, and the vectors as
lists whose head is the most recently pushed element.  `files` is the
`apply.missing_context.files` set reached through the embedded apply
workspace. -/
structure Workspace where
  up : List (V × OPos) := []
  down : List (V × OPos) := []
  parents : List V := []
  del : List Edge := []
  stack : List V := []
  del_edges : List (V × Edge) := []
  must_reintroduce : List (V × V) := []
  zombies_stack : List (V × Bool × Bool) := []
  files : List V := []
deriving DecidableEq, Repr

/-- `HashMap::insert`: bind `k` to `x`, replacing any previous binding. -/
def insertM (l : List (V × OPos)) (k : V) (x : OPos) : List (V × OPos) :=
  (k, x) :: l.filter (fun p => !decide (p.1 = k))

/-- `HashSet::insert` (ignoring its Boolean result). -/
def insertS (l : List V) (v : V) : List V :=
  if v ∈ l then l else v :: l

/-! ## `unapply_newvertex`: the per-vertex edge scan (unrecord/mod.rs:302-320) -/

/-- The conditional part of one iteration of the edge loop in
`unapply_newvertex` (unrecord/mod.rs:305-318): for a non-`DELETED` edge
record the upper or lower neighbour (parent non-folder edges into
`ws.up`, child edges into `ws.down`, folder children also into
`missing_context.files`); a `DELETED` edge records nothing.  `none`
models a propagated `find_block`/`find_block_end` error. -/
def unv_edge_record (g : PGraph) (inode : OPos) (ws : Workspace) (e : Edge) :
    Option Workspace :=
  if !e.flag.deleted then
    if e.flag.parent then
      if !e.flag.folder then
        match g.findBlockEnd e.dest with
        | none => none
        | some up_v => some { ws with up := insertM ws.up up_v inode }
      else some ws
    else
      match g.findBlock e.dest with
      | none => none
      | some down_v =>
        let ws := { ws with down := insertM ws.down down_v inode }
        some (if e.flag.folder then { ws with files := insertS ws.files down_v } else ws)
  else some ws

/-- The whole per-edge step: the conditional neighbour recording above,
followed by the unconditional `ws.del.push(*e)` of
unrecord/mod.rs:319. -/
def unv_edge (g : PGraph) (inode : OPos) (ws : Workspace) (e : Edge) :
    Option Workspace :=
  match unv_edge_record g inode ws e with
  | none => none
  | some ws => some { ws with del := ws.del ++ [e] }

/-- The full edge loop of an `unapply_newvertex` iteration
(unrecord/mod.rs:302-320), over the adjacency list of the vertex found by
`find_block`. -/
def unv_scan_edges (g : PGraph) (inode : OPos) :
    List Edge → Workspace → Option Workspace
  | [], ws => some ws
  | e :: es, ws =>
    match unv_edge g inode ws e with
    | none => none
    | some ws => unv_scan_edges g inode es ws

/-! ## `retrieve`'s vertex admission (alive/retrieve.rs:34-116) -/

/-- `AliveVertex` (alive/retrieve.rs), with `flags` restricted to the
`ZOMBIE` bit (value 1, the only bit `new_vertex` can set) and the
DFS/Tarjan bookkeeping fields initialised to zero exactly as in
`new_vertex`. -/
structure AliveVertex where
  vertex : V
  flags : Nat
  children : Nat := 0
  n_children : Nat := 0
  index : Nat := 0
  lowlink : Nat := 0
  scc : Nat := 0
deriving DecidableEq, Repr

/-- `new_vertex` (alive/retrieve.rs:79-116): find the vertex occupying
`pos` (the `.unwrap()` of a failed `find_block` panics — outer `none`);
if it is not alive return `some none` (the vertex is skipped); otherwise
scan `iter_adjacent(vertex, PARENT|DELETED|BLOCK, all)` — numeric flag
range `[25, 31]` — and tag the vertex `ZOMBIE` when some edge's flags
contain all of `PARENT`, `DELETED` and `BLOCK`. -/
def new_vertex (g : PGraph) (pos : Pos) : Option (Option AliveVertex) :=
  match g.findBlock pos with
  | none => none
  | some vertex =>
    if !is_alive (g.adj vertex) vertex then some none
    else
      let zombie := (iter_adjacent (g.adj vertex) 25 31).any
        (fun e => e.flag.parent && e.flag.deleted && e.flag.block)
      some (some { vertex := vertex, flags := if zombie then 1 else 0 })

/-- The in-memory graph built by `retrieve`, restricted to its vertex
array (`graph.lines`). -/
structure RGraph where
  lines : List AliveVertex
deriving DecidableEq, Repr

/-- The cache-miss step of `retrieve` (alive/retrieve.rs:52-66): a
destination position not in the cache is looked up with `new_vertex`; a
`some` result is appended to `graph.lines` (and its `VertexId` returned,
to be cached and stacked), a `none` result is skipped (`continue`). -/
def retrieve_add (g : PGraph) (rg : RGraph) (pos : Pos) :
    Option (RGraph × Option Nat) :=
  match new_vertex g pos with
  | none => none
  | some none => some (rg, none)
  | some (some alive) => some ({ lines := rg.lines ++ [alive] }, some rg.lines.length)

/-! ## Zombie collection (unrecord/mod.rs:542-694) -/

/-- The edge loop of one `collect_zombies` iteration
(unrecord/mod.rs:555-574): skip edges that are neither introduced by the
unrecorded change nor plain parent edges (`flag ∩ (BLOCK|PARENT) =
PARENT`); follow the rest through `find_block`/`find_block_end` (errors
propagate), and queue edges introduced by the change in `ws.del_edges`. -/
def cz_edges (g : PGraph) (change_id : ChangeId) (v : V) :
    List Edge → Workspace → Option Workspace
  | [], ws => some ws
  | e :: es, ws =>
    if e.introduced_by = change_id ∨ (e.flag.parent ∧ ¬e.flag.block) then
      match (if e.flag.parent then g.findBlockEnd e.dest else g.findBlock e.dest) with
      | none => none
      | some w =>
        let ws := { ws with stack := w :: ws.stack }
        let ws :=
          if e.introduced_by = change_id then
            { ws with del_edges := ws.del_edges ++ [(v, e)] }
          else ws
        cz_edges g change_id v es ws
    else cz_edges g change_id v es ws

/-- The `while let Some(v) = ws.stack.pop()` loop of `collect_zombies`
(unrecord/mod.rs:550-575), with explicit fuel (the source loop terminates
through the `parents` visited set; fuel exhaustion is `none`). -/
def cz_loop (g : PGraph) (change_id : ChangeId) :
    Nat → Workspace → Option Workspace
  | 0, _ => none
  | fuel + 1, ws =>
    match ws.stack with
    | [] => some ws
    | v :: rest =>
      let ws := { ws with stack := rest }
      if v ∈ ws.parents then cz_loop g change_id fuel ws
      else
        match cz_edges g change_id v (g.adj v) { ws with parents := v :: ws.parents } with
        | none => none
        | some ws => cz_loop g change_id fuel ws

/-- `collect_zombies` (unrecord/mod.rs:542-579): push `find_block(to)`
(error propagates), run the DFS loop, then clear `ws.stack` and
`ws.parents`. -/
def collect_zombies (g : PGraph) (change_id : ChangeId) (to_ : Pos)
    (fuel : Nat) (ws : Workspace) : Option Workspace :=
  match g.findBlock to_ with
  | none => none
  | some v0 =>
    match cz_loop g change_id fuel { ws with stack := v0 :: ws.stack } with
    | none => none
    | some ws => some { ws with stack := [], parents := [] }

/-- The edge loop of one `collect_zombies_up` iteration
(unrecord/mod.rs:670-689): parent edges must carry `FOLDER` (the
`assert!` panics otherwise — `none`); a parent edge with neither `PSEUDO`
nor `DELETED` anchors the vertex, so the additions of this iteration are
truncated away and the loop breaks; otherwise the upper neighbour is
pushed (a `find_block_end` error is swallowed by the `if let`) and
`PSEUDO` parent edges are queued. -/
def czu_edges (g : PGraph) (v : V) (del_len stack_len : Nat) :
    List Edge → Workspace → Option Workspace
  | [], ws => some ws
  | e :: es, ws =>
    if e.flag.parent then
      if !e.flag.folder then none
      else if !e.flag.pseudo && !e.flag.deleted then
        some { ws with
          del_edges := ws.del_edges.take del_len,
          stack := ws.stack.drop (ws.stack.length - stack_len) }
      else
        let ws :=
          match g.findBlockEnd e.dest with
          | some x => { ws with stack := x :: ws.stack }
          | none => ws
        let ws :=
          if e.flag.pseudo then { ws with del_edges := ws.del_edges ++ [(v, e)] }
          else ws
        czu_edges g v del_len stack_len es ws
    else czu_edges g v del_len stack_len es ws

/-- The main loop of `collect_zombies_up` (unrecord/mod.rs:663-690), with
explicit fuel. -/
def czu_loop (g : PGraph) : Nat → Workspace → Option Workspace
  | 0, _ => none
  | fuel + 1, ws =>
    match ws.stack with
    | [] => some ws
    | v :: rest =>
      let ws := { ws with stack := rest }
      if v ∈ ws.parents then czu_loop g fuel ws
      else
        let ws := { ws with parents := v :: ws.parents }
        match czu_edges g v ws.del_edges.length ws.stack.length (g.adj v) ws with
        | none => none
        | some ws => czu_loop g fuel ws

/-- `collect_zombies_up` (unrecord/mod.rs:653-694): push `find_block(to)`
if it succeeds (the `if let Ok` swallows the error), run the loop, then
clear `ws.stack` and `ws.parents`. -/
def collect_zombies_up (g : PGraph) (to_ : Pos) (fuel : Nat) (ws : Workspace) :
    Option Workspace :=
  let ws :=
    match g.findBlock to_ with
    | some t => { ws with stack := t :: ws.stack }
    | none => ws
  match czu_loop g fuel ws with
  | none => none
  | some ws => some { ws with stack := [], parents := [] }

/-- The alive-children loop of a first visit in `collect_zombies_pseudo`
(unrecord/mod.rs:625-646): skip edges intersecting `PARENT|DELETED`; find
each child (`find_block` errors propagate); an alive child marks every
on-path entry of the tri-state stack alive, a dead child is pushed (the
parent entry `(v, false, true)` is pushed before the first dead
child). -/
def czp_children (g : PGraph) (v : V) :
    List Edge → Workspace → Bool → Option (Workspace × Bool)
  | [], ws, is_first => some (ws, is_first)
  | e :: es, ws, is_first =>
    if e.flag.parent || e.flag.deleted then czp_children g v es ws is_first
    else
      match g.findBlock e.dest with
      | none => none
      | some x =>
        if is_alive (g.adj x) x then
          let ws := { ws with
            zombies_stack := ws.zombies_stack.map
              (fun w => if w.2.2 then (w.1, true, w.2.2) else w) }
          czp_children g v es ws is_first
        else
          let ws :=
            if is_first then { ws with zombies_stack := (v, false, true) :: ws.zombies_stack }
            else ws
          let ws := { ws with zombies_stack := (x, false, false) :: ws.zombies_stack }
          czp_children g v es ws false

/-- The tri-state-stack loop of `collect_zombies_pseudo`
(unrecord/mod.rs:594-647), with explicit fuel.  On a finishing visit of a
dead vertex its `PSEUDO` edges are queued, and when the stack has emptied
back at the origin, `parents` is cleared and `collect_zombies_up` runs
(its error propagates).  A first visit asserts `!alive` (panic ⇒ `none`),
deduplicates through `parents`, and explores the alive children. -/
def czp_loop (g : PGraph) (to_ : Pos) (fuel_up : Nat) :
    Nat → Workspace → Option Workspace
  | 0, _ => none
  | fuel + 1, ws =>
    match ws.zombies_stack with
    | [] => some ws
    | (v, alive, on_path) :: rest =>
      let ws := { ws with zombies_stack := rest }
      if on_path then
        if alive then czp_loop g to_ fuel_up fuel ws
        else
          let ws := { ws with
            del_edges := ws.del_edges ++
              ((g.adj v).filter (fun (e : Edge) => e.flag.pseudo)).map
                (fun (e : Edge) => (v, e)) }
          if ws.zombies_stack.isEmpty then
            match collect_zombies_up g to_ fuel_up { ws with parents := [] } with
            | none => none
            | some ws => czp_loop g to_ fuel_up fuel ws
          else czp_loop g to_ fuel_up fuel ws
      else
        if alive then none
        else if v ∈ ws.parents then czp_loop g to_ fuel_up fuel ws
        else
          let ws := { ws with parents := v :: ws.parents }
          match czp_children g v (iter_alive_children (g.adj v)) ws true with
          | none => none
          | some (ws, _) => czp_loop g to_ fuel_up fuel ws

/-- `collect_zombies_pseudo` (unrecord/mod.rs:583-651): push the origin
found by `find_block` if it succeeds (the error is swallowed), run the
tri-state DFS, then clear `ws.zombies_stack` and `ws.parents`. -/
def collect_zombies_pseudo (g : PGraph) (to_ : Pos) (fuel_up fuel : Nat)
    (ws : Workspace) : Option Workspace :=
  let ws :=
    match g.findBlock to_ with
    | some t => { ws with zombies_stack := (t, false, false) :: ws.zombies_stack }
    | none => ws
  match czp_loop g to_ fuel_up fuel ws with
  | none => none
  | some ws => some { ws with zombies_stack := [], parents := [] }

/-! ## Change files (src/libpijul/src/change/change_file.rs) -/

/-- The `Offsets` prefix of a change file (spec section 6; the struct
itself lives in `change/mod.rs`, outside `src/`, and is read through
`bincode::deserialize` at change_file.rs:43). -/
structure Offsets where
  version : Nat
  hashed_len : Nat
  unhashed_off : Nat
  unhashed_len : Nat
  contents_off : Nat
deriving DecidableEq, Repr

/-- The `ChangeError` constructors (from `change/mod.rs`, outside `src/`)
produced by the modelled paths of `ChangeFile`: `versionMismatch` carries
the offending version, `missingContents` the change hash; `bincode` and
`zstd` stand for deserialisation and (de)compression failures. -/
inductive ChangeError where
  | ioHash (hash : Hash)
  | bincode
  | zstd
  | versionMismatch (got : Nat)
  | missingContents (hash : Hash)
deriving DecidableEq, Repr

/-- An open change file (`ChangeFile`, change_file.rs:4-9): `s` is the
optional seekable contents stream (kept as a unit marker — decompression
itself is a parameter of `read_contents`), `hashed` the decoded hashed
body, `unhashed` the optional decoded metadata. -/
structure ChangeFileM (H U : Type) where
  s : Option Unit
  hashed : H
  hash : Hash
  unhashed : Option U
deriving DecidableEq, Repr

/-- `ChangeFile::open` (change_file.rs:37-96), starting after the
`Offsets` prefix has been deserialised.  `decCur`/`decNoenc` are the
results of decompressing-and-deserialising the hashed body as the current
resp. `NOENC` format (`none` covering both zstd and bincode failures),
`conv` the legacy `noenc` conversion (`h.into()`), `unhashedParse` the
optional decoded unhashed section, `initSeek` the result of
`zstd_seekable::Seekable::init` on the contents section, and `fileLen`
the file's metadata length.  The version constants `VERSION` and
`VERSION_NOENC` live in `change/mod.rs` (outside `src/`) and are passed
as parameters `ver` and `verNoenc`. -/
def ChangeFile.open_ {H N U : Type} (ver verNoenc : Nat) (hash : Hash)
    (offsets : Offsets) (decCur : Option H) (decNoenc : Option N) (conv : N → H)
    (unhashedParse : Option U) (initSeek : Option Unit) (fileLen : Nat) :
    Except ChangeError (ChangeFileM H U) :=
  if offsets.version ≠ ver ∧ offsets.version ≠ verNoenc then
    .error (.versionMismatch offsets.version)
  else
    match (if offsets.version = ver then decCur else decNoenc.map conv) with
    | none => .error .bincode
    | some hashed =>
      let unhashed : Option U :=
        if offsets.contents_off - offsets.unhashed_off = 0 then none
        else unhashedParse
      if offsets.contents_off ≥ fileLen then
        .ok { s := none, hashed := hashed, hash := hash, unhashed := unhashed }
      else
        match initSeek with
        | none => .error .zstd
        | some _ => .ok { s := some (), hashed := hashed, hash := hash, unhashed := unhashed }

/-- `ChangeFile::has_contents` (change_file.rs:98-100). -/
def ChangeFileM.has_contents {H U : Type} (cf : ChangeFileM H U) : Bool :=
  cf.s.isSome

/-- `ChangeFile::read_contents` (change_file.rs:105-112): with a contents
stream, decompress at the given offset into the buffer (`decompress
offset bufLen` models `s.decompress(buf, offset)`, `none` being a zstd
error) — no bounds check on the contents section; without one, fail with
`MissingContents` carrying the change's hash. -/
def ChangeFileM.read_contents {H U : Type} (decompress : Nat → Nat → Option Nat)
    (cf : ChangeFileM H U) (offset : Nat) (bufLen : Nat) : Except ChangeError Nat :=
  match cf.s with
  | some _ =>
    match decompress offset bufLen with
    | some n => .ok n
    | none => .error .zstd
  | none => .error (.missingContents cf.hash)

/-! ## Concrete instances used by witnesses and counterexamples -/

/-- A channel in which change `20` is applied at timestamp `5` and change
`10` is absent. -/
def chMain : Channel :=
  { name := "main", changes := [(20, 5)], revchanges := [(5, 20)], tags := [] }

/-- A parsed tag-file header whose recorded state is `3`. -/
def hdrT : FileHeader :=
  { version := 7, header := 100, channel := 120, unhashed := 200, total := 200,
    offsets := {}, state := 3 }

/-- An `Offsets` prefix carrying the legacy `NOENC` version `4` and no
contents section (`contents_off = unhashed_off = 20`). -/
def offsN : Offsets :=
  { version := 4, hashed_len := 10, unhashed_off := 20, unhashed_len := 0,
    contents_off := 20 }

/-- The single vertex of the witness graphs. -/
def vWit : V := ⟨1, 0, 1⟩

/-- A graph whose lookups all land on `vWit` and whose adjacency is empty. -/
def gWit : PGraph where
  findBlock := fun _ => some vWit
  findBlockEnd := fun _ => some vWit
  adj := fun _ => []

/-- An adjacent edge carrying only the `DELETED` flag. -/
def eDel : Edge := { flag := { deleted := true }, dest := ⟨0, 0⟩, introduced_by := 2 }

/-- A `PARENT|DELETED|BLOCK` edge: the zombie marker of `new_vertex`. -/
def ePDB : Edge :=
  { flag := { block := true, deleted := true, parent := true }, dest := ⟨0, 0⟩,
    introduced_by := 3 }

/-- A live incoming edge (`PARENT|BLOCK`, not deleted). -/
def eParB : Edge :=
  { flag := { block := true, parent := true }, dest := ⟨0, 0⟩, introduced_by := 2 }

/-- A graph in which `vWit` is alive and carries a zombie marker. -/
def gZom : PGraph where
  findBlock := fun _ => some vWit
  findBlockEnd := fun _ => some vWit
  adj := fun _ => [eParB, ePDB]

/-- A graph in which `vWit`'s only incoming edge is deleted, so `vWit` is
dead. -/
def gDead : PGraph where
  findBlock := fun _ => some vWit
  findBlockEnd := fun _ => some vWit
  adj := fun _ => [ePDB]

/-- The `AliveVertex` that `new_vertex` produces for `vWit` in `gZom`. -/
def avZom : AliveVertex := { vertex := vWit, flags := 1 }

/-- A pristine in which change `1` (hash `7`) is applied at timestamp `0`
in the only channel. -/
def stU : State :=
  { internal := [(7, 1)], external := [(1, 7)], dep := [], revdep := [],
    current := { name := "m", changes := [(1, 0)], revchanges := [(0, 1)], tags := [] },
    others := [] }

/-- `stU` with a second channel (of a different name) that also has change
`1` applied. -/
def stR : State :=
  { stU with
    others := [{ name := "other", changes := [(1, 0)], revchanges := [(0, 1)], tags := [] }] }

/-! ## C5: the `unapply_edges` knowledge oracle -/

/-- C5: in `unapply_edges`, the knowledge oracle passed to `put_newedge`
answers `true` for the unrecorded change's own hash; otherwise, when the
edge being re-introduced had `DELETED` in its previous flags, it answers
`changes.knows(introducer, h)` (the introducer defaulting to the
unrecorded change itself); and for every other edge it answers `true`
unconditionally. -/
theorem unapply_edges_knows_cases (knows : Hash → Hash → Bool) (hash : Hash)
    (previous : EdgeFlags) (introduced_by : Option Hash) (h : Hash) :
    (h = hash → unapply_edges_knows knows hash previous introduced_by h = true) ∧
    (h ≠ hash → previous.deleted = true →
      unapply_edges_knows knows hash previous introduced_by h =
        knows (introduced_by.getD hash) h) ∧
    (h ≠ hash → previous.deleted = false →
      unapply_edges_knows knows hash previous introduced_by h = true) := by
  refine ⟨fun h1 => ?_, fun h1 h2 => ?_, fun h1 h2 => ?_⟩
  · simp [unapply_edges_knows, h1]
  · simp [unapply_edges_knows, h1, h2]
  · simp [unapply_edges_knows, h1, h2]

/-- Witness for C5: the three oracle cases evaluated at concrete inputs. -/
theorem unapply_edges_knows_cases_witness :
    unapply_edges_knows (fun _ _ => false) 7 { deleted := true } (some 3) 7 = true ∧
    unapply_edges_knows (fun a b => a + b == 9) 7 { deleted := true } (some 3) 2 =
      ((3 + 2 : Nat) == 9) ∧
    unapply_edges_knows (fun _ _ => false) 7 {} none 2 = true :=
  ⟨(unapply_edges_knows_cases (fun _ _ => false) 7 { deleted := true } (some 3) 7).1 rfl,
   (unapply_edges_knows_cases (fun a b => a + b == 9) 7 { deleted := true } (some 3) 2).2.1
     (by decide) rfl,
   (unapply_edges_knows_cases (fun _ _ => false) 7 {} none 2).2.2 (by decide) rfl⟩

/-! ## C7: tag-file state validation -/

/-- Counterexample to C7: `read_short` does not succeed whenever the
parsed header's state equals `expected` — with a matching state but a
corrupt change-header section it fails with the corrupt-file error
(`BincodeDe`), so "succeeds iff `header.state = expected`" is false for
`read_short`. -/
theorem read_short_corrupt_header_cex :
    hdrT.state = 3 ∧
    read_short (some hdrT) (fun _ => none) 3 = .error .bincodeDe ∧
    (read_short (some hdrT) (fun _ => none) 3).isOk = false := by
  exact ⟨rfl, rfl, rfl⟩

/-- C7 (amended): `OpenTagFile::open` succeeds iff the parsed header's
state equals `expected`, and rejects with `WrongHash{expected, got =
header.state}` otherwise; `read_short` rejects with `WrongHash` exactly
when the state differs, but on a matching state it succeeds iff the
change-header deserialisation also succeeds. -/
theorem tag_open_wrong_hash (hdr : FileHeader)
    (chdrAt : Nat → Option ChangeHeader) (expected : Merkle) :
    ((OpenTagFile.open_ (some hdr) expected).isOk = true ↔ hdr.state = expected) ∧
    (hdr.state ≠ expected →
      OpenTagFile.open_ (some hdr) expected = .error (.wrongHash expected hdr.state)) ∧
    ((∃ e g, read_short (some hdr) chdrAt expected = .error (.wrongHash e g)) ↔
      hdr.state ≠ expected) ∧
    (hdr.state = expected →
      ((read_short (some hdr) chdrAt expected).isOk = true ↔
        (chdrAt hdr.header).isSome = true)) := by
  by_cases hst : hdr.state = expected
  · refine ⟨by simp [OpenTagFile.open_, hst, Except.isOk, Except.toBool], ?_, ?_, ?_⟩
    · intro hne; exact absurd hst hne
    · cases hch : chdrAt hdr.header <;>
        simp [read_short, hst, hch]
    · intro _
      cases hch : chdrAt hdr.header <;>
        simp [read_short, hst, hch, Except.isOk, Except.toBool]
  · refine ⟨by simp [OpenTagFile.open_, hst, Except.isOk, Except.toBool], ?_, ?_, ?_⟩
    · intro _; simp [OpenTagFile.open_, hst]
    · simp only [read_short]
      constructor
      · intro _; exact hst
      · intro _
        refine ⟨expected, hdr.state, ?_⟩
        simp [hst]
    · intro h; exact absurd h hst

/-- Witness for C7: both directions evaluated on concrete headers (state
`3` against expectations `3` and `4`). -/
theorem tag_open_wrong_hash_witness :
    ((OpenTagFile.open_ (some hdrT) 3).isOk = true ↔ hdrT.state = 3) ∧
    OpenTagFile.open_ (some hdrT) 4 = .error (.wrongHash 4 hdrT.state) ∧
    ((read_short (some hdrT) (fun _ => some 11) 3).isOk = true ↔
      ((fun _ => some 11) hdrT.header).isSome = true) :=
  ⟨(tag_open_wrong_hash hdrT (fun _ => some 11) 3).1,
   (tag_open_wrong_hash hdrT (fun _ => some 11) 4).2.1 (by decide),
   (tag_open_wrong_hash hdrT (fun _ => some 11) 3).2.2.2 rfl⟩

/-! ## C8: change-file version acceptance -/

/-- C8: `ChangeFile::open` returns `VersionMismatch{got}` iff the version
field of the `Offsets` prefix is neither the current version nor the
`NOENC` version (and `got` is that version field); a `NOENC` file passes
the version check and, when open succeeds, its hashed body is the legacy
decode pushed through the `noenc` conversion. -/
theorem change_file_version_check {H N U : Type} (ver verNoenc : Nat) (hash : Hash)
    (offsets : Offsets) (decCur : Option H) (decNoenc : Option N) (conv : N → H)
    (unhashedParse : Option U) (initSeek : Option Unit) (fileLen : Nat) :
    (∀ got,
      ChangeFile.open_ ver verNoenc hash offsets decCur decNoenc conv
          unhashedParse initSeek fileLen = .error (.versionMismatch got) ↔
        (got = offsets.version ∧ offsets.version ≠ ver ∧ offsets.version ≠ verNoenc)) ∧
    (offsets.version = verNoenc → verNoenc ≠ ver →
      ∀ cf,
        ChangeFile.open_ ver verNoenc hash offsets decCur decNoenc conv
            unhashedParse initSeek fileLen = .ok cf →
          ∃ n, decNoenc = some n ∧ cf.hashed = conv n) := by
  constructor
  · intro got
    unfold ChangeFile.open_
    by_cases hv : offsets.version ≠ ver ∧ offsets.version ≠ verNoenc
    · simp only [if_pos hv]
      constructor
      · intro h
        injection h with h
        cases h
        exact ⟨rfl, hv⟩
      · rintro ⟨rfl, -⟩; rfl
    · simp only [if_neg hv]
      constructor
      · intro h
        exfalso
        rcases hdec : (if offsets.version = ver then decCur else decNoenc.map conv) with
          - | hashed
        · rw [hdec] at h
          dsimp only at h
          injection h with h
          cases h
        · rw [hdec] at h
          dsimp only at h
          by_cases hclen : offsets.contents_off ≥ fileLen
          · rw [if_pos hclen] at h; cases h
          · rw [if_neg hclen] at h
            rcases initSeek with - | u
            · cases h
            · cases h
      · rintro ⟨-, hne⟩; exact absurd hne hv
  · intro hvn hne cf h
    unfold ChangeFile.open_ at h
    have hnot : ¬(offsets.version ≠ ver ∧ offsets.version ≠ verNoenc) := by
      intro hc; exact hc.2 hvn
    rw [if_neg hnot] at h
    have hvv : offsets.version ≠ ver := by rw [hvn]; exact hne
    rw [if_neg hvv] at h
    rcases hdec : decNoenc with - | n
    · rw [hdec] at h; cases h
    · rw [hdec] at h
      dsimp only [Option.map_some'] at h
      refine ⟨n, rfl, ?_⟩
      by_cases hclen : offsets.contents_off ≥ fileLen
      · rw [if_pos hclen] at h
        injection h with h
        rw [← h]
      · rw [if_neg hclen] at h
        rcases initSeek with - | u
        · cases h
        · injection h with h
          rw [← h]

/-- Witness for C8: a version-`4` (`NOENC`) file against current version
`6`: the version check passes and the hashed body is the converted legacy
decode; and the version-mismatch case at version `5`. -/
theorem change_file_version_check_witness :
    (∃ n, (some 10 : Option Nat) = some n ∧ (11 : Nat) = n + 1) ∧
    ChangeFile.open_ (H := Nat) (N := Nat) (U := Nat) 6 4 9
        { offsN with version := 5 } none (some 10) (fun n => n + 1) none none 0 =
      .error (.versionMismatch 5) := by
  constructor
  · exact (change_file_version_check (H := Nat) (N := Nat) (U := Nat) 6 4 9 offsN
      none (some 10) (fun n => n + 1) none none 0).2 rfl (by decide)
      { s := none, hashed := 11, hash := 9, unhashed := none } rfl
  · exact ((change_file_version_check (H := Nat) (N := Nat) (U := Nat) 6 4 9
      { offsN with version := 5 } none (some 10) (fun n => n + 1) none none 0).1 5).2
      ⟨rfl, by decide, by decide⟩

/-! ## C10: missing-contents behaviour of `read_contents` -/

/-- C10: `ChangeFile::read_contents` fails with `MissingContents{hash}`
iff the open file has no contents stream (for every offset and buffer
size, and the hash it carries is the change's own); with a contents
stream, the call is the unchecked decompression at the given offset; and
`open` records "no contents stream" exactly when `contents_off` is at or
past the end of the file. -/
theorem read_contents_missing_iff {H N U : Type} (decompress : Nat → Nat → Option Nat)
    (cf : ChangeFileM H U) (offset bufLen : Nat) :
    (ChangeFileM.read_contents decompress cf offset bufLen =
        .error (.missingContents cf.hash) ↔ cf.s = none) ∧
    (∀ h, ChangeFileM.read_contents decompress cf offset bufLen =
        .error (.missingContents h) → h = cf.hash) ∧
    (∀ u, cf.s = some u →
      ∀ n, (ChangeFileM.read_contents decompress cf offset bufLen = .ok n ↔
        decompress offset bufLen = some n)) ∧
    (∀ (ver verNoenc : Nat) (hash : Hash) (offsets : Offsets) (decCur : Option H)
        (decNoenc : Option N) (conv : N → H) (unhashedParse : Option U)
        (initSeek : Option Unit) (fileLen : Nat) (cf' : ChangeFileM H U),
      ChangeFile.open_ ver verNoenc hash offsets decCur decNoenc conv
          unhashedParse initSeek fileLen = .ok cf' →
        (cf'.s = none ↔ offsets.contents_off ≥ fileLen)) := by
  refine ⟨?_, ?_, ?_, ?_⟩
  · rcases hcs : cf.s with - | u
    · simp [ChangeFileM.read_contents, hcs]
    · simp only [ChangeFileM.read_contents, hcs]
      rcases hdec : decompress offset bufLen with - | n <;> simp
  · intro h hres
    rcases hcs : cf.s with - | u <;> rw [ChangeFileM.read_contents, hcs] at hres
    · injection hres with hres
      injection hres with hres
      exact hres.symm
    · rcases hdec : decompress offset bufLen with - | n <;> rw [hdec] at hres
      · cases hres
      · cases hres
  · intro u hcs n
    simp only [ChangeFileM.read_contents, hcs]
    rcases hdec : decompress offset bufLen with - | m
    · simp
    · simp only []
      constructor
      · intro h; injection h with h; rw [h]
      · intro h; injection h with h; rw [h]
  · intro ver verNoenc hash offsets decCur decNoenc conv unhashedParse initSeek
      fileLen cf' hopen
    unfold ChangeFile.open_ at hopen
    by_cases hv : offsets.version ≠ ver ∧ offsets.version ≠ verNoenc
    · rw [if_pos hv] at hopen; cases hopen
    · rw [if_neg hv] at hopen
      rcases hdec : (if offsets.version = ver then decCur else decNoenc.map conv) with
        - | hashed <;> rw [hdec] at hopen
      · cases hopen
      · dsimp only at hopen
        by_cases hclen : offsets.contents_off ≥ fileLen
        · rw [if_pos hclen] at hopen
          injection hopen with hopen
          rw [← hopen]
          simp [hclen]
        · rw [if_neg hclen] at hopen
          rcases initSeek with - | w
          · cases hopen
          · injection hopen with hopen
            rw [← hopen]
            simp [hclen]

/-- Witness for C10: a file without a contents stream fails with
`MissingContents` at an arbitrary offset, one with a stream decompresses
unchecked, and the open-time linkage at concrete offsets. -/
theorem read_contents_missing_iff_witness :
    (ChangeFileM.read_contents (fun _ _ => some 42)
        ({ s := none, hashed := 0, hash := 9, unhashed := none } : ChangeFileM Nat Nat)
        1000 7 = .error (.missingContents 9) ↔
      ({ s := none, hashed := 0, hash := 9, unhashed := none } : ChangeFileM Nat Nat).s
        = none) ∧
    (ChangeFileM.read_contents (fun _ _ => some 42)
        ({ s := some (), hashed := 0, hash := 9, unhashed := none } : ChangeFileM Nat Nat)
        1000 7 = .ok 42 ↔ (fun (_ _ : Nat) => some 42) 1000 7 = some 42) := by
  constructor
  · exact (read_contents_missing_iff (H := Nat) (N := Nat) (U := Nat)
      (fun _ _ => some 42)
      { s := none, hashed := 0, hash := 9, unhashed := none } 1000 7).1
  · exact (read_contents_missing_iff (H := Nat) (N := Nat) (U := Nat)
      (fun _ _ => some 42)
      { s := some (), hashed := 0, hash := 9, unhashed := none } 1000 7).2.2.1 () rfl 42

/-! ## C2: ordering of checks in `del_channel_changes` -/

/-- Counterexample to C2: for change `10`, absent from the channel while
its dependent `20` is applied (`revdep = [(10, 20)]`), `del_channel_changes`
aborts with `ChangeNotInChannel` — the membership lookup runs before the
dependency verification, not after it as the claim states. -/
theorem del_channel_changes_not_in_channel_first_cex :
    (20 ∈ iter_revdep [(10, 20)] 10 ∧ (lookupA chMain.changes 20).isSome = true ∧
      lookupA chMain.changes 10 = none) ∧
    del_channel_changes [(10, 20)] chMain 10 = .error (.changeNotInChannel 10) ∧
    del_channel_changes [(10, 20)] chMain 10 ≠ .error (.changeIsDependedUpon 10 20) := by
  exact ⟨by decide, rfl, by decide⟩

/-- C2 (amended): in `del_channel_changes` the timestamp lookup runs
first — a change absent from the channel's `changes` map aborts with
`ChangeNotInChannel` before any dependency is examined; for a change that
is present, the dependency verification (aborting with
`ChangeIsDependedUpon` on the first applied dependent in
`revdep[change_id]`) completes before the removal, and the removal from
`changes`, `revchanges` and `tags` happens only when both checks pass. -/
theorem del_channel_changes_order (revdep : List (ChangeId × ChangeId))
    (ch : Channel) (change_id : ChangeId) :
    (lookupA ch.changes change_id = none →
      del_channel_changes revdep ch change_id = .error (.changeNotInChannel change_id)) ∧
    (∀ ts d, lookupA ch.changes change_id = some ts →
      (iter_revdep revdep change_id).find? (fun d => (lookupA ch.changes d).isSome) =
        some d →
      del_channel_changes revdep ch change_id =
        .error (.changeIsDependedUpon change_id d)) ∧
    (∀ ts, lookupA ch.changes change_id = some ts →
      (∀ d ∈ iter_revdep revdep change_id, lookupA ch.changes d = none) →
      del_channel_changes revdep ch change_id =
        .ok (del_tags (del_changes ch change_id ts) ts)) := by
  refine ⟨fun h => ?_, fun ts d h hd => ?_, fun ts h hnone => ?_⟩
  · simp [del_channel_changes, h]
  · simp [del_channel_changes, h, hd]
  · have hfind : (iter_revdep revdep change_id).find?
        (fun d => (lookupA ch.changes d).isSome) = none := by
      rw [List.find?_eq_none]
      intro d hd
      rw [hnone d hd]
      simp
    simp [del_channel_changes, h, hfind]

/-- Witness for C2: the three paths of `del_channel_changes` evaluated on
concrete channels (change `10` present at timestamp `3`, dependent `20`
applied resp. nothing applied). -/
theorem del_channel_changes_order_witness :
    del_channel_changes [] ({ chMain with changes := [] }) 10 =
      .error (.changeNotInChannel 10) ∧
    del_channel_changes [(10, 20)]
        ({ chMain with changes := [(10, 3), (20, 5)] }) 10 =
      .error (.changeIsDependedUpon 10 20) ∧
    del_channel_changes [(10, 20)] ({ chMain with changes := [(10, 3)] }) 10 =
      .ok (del_tags (del_changes ({ chMain with changes := [(10, 3)] }) 10 3) 3) :=
  ⟨(del_channel_changes_order [] ({ chMain with changes := [] }) 10).1 rfl,
   (del_channel_changes_order [(10, 20)]
      ({ chMain with changes := [(10, 3), (20, 5)] }) 10).2.1 3 20 rfl (by decide),
   (del_channel_changes_order [(10, 20)] ({ chMain with changes := [(10, 3)] }) 10).2.2
      3 rfl (by decide)⟩

/-! ## C4: edge queueing in `unapply_newvertex` -/

/-- Helper: the conditional recording step never touches the deletion
queue, and on a `DELETED` edge it records nothing at all. -/
theorem unv_edge_record_del (g : PGraph) (inode : OPos) (ws : Workspace) (e : Edge)
    (ws₁ : Workspace) (h : unv_edge_record g inode ws e = some ws₁) :
    ws₁.del = ws.del ∧
    (e.flag.deleted = true →
      ws₁.up = ws.up ∧ ws₁.down = ws.down ∧ ws₁.files = ws.files) := by
  unfold unv_edge_record at h
  by_cases hdel : e.flag.deleted
  · rw [hdel] at h
    simp only [Bool.not_true, if_neg (by decide : ¬false = true)] at h
    injection h with h
    rw [← h]
    exact ⟨rfl, fun _ => ⟨rfl, rfl, rfl⟩⟩
  · rw [Bool.not_eq_true] at hdel
    rw [hdel] at h
    simp only [Bool.not_false, if_pos rfl] at h
    refine ?_
    by_cases hpar : e.flag.parent
    · rw [hpar] at h
      simp only [if_pos rfl] at h
      by_cases hfol : e.flag.folder
      · rw [hfol] at h
        simp only [Bool.not_true, if_neg (by decide : ¬false = true)] at h
        injection h with h
        rw [← h]
        exact ⟨rfl, fun hc => by rw [hdel] at hc; cases hc⟩
      · rw [Bool.not_eq_true] at hfol
        rw [hfol] at h
        simp only [Bool.not_false, if_pos rfl] at h
        rcases hfb : g.findBlockEnd e.dest with - | u <;> rw [hfb] at h
        · cases h
        · injection h with h
          rw [← h]
          exact ⟨rfl, fun hc => by rw [hdel] at hc; cases hc⟩
    · rw [Bool.not_eq_true] at hpar
      rw [hpar] at h
      simp only [if_neg (by decide : ¬false = true)] at h
      rcases hfb : g.findBlock e.dest with - | u <;> rw [hfb] at h
      · cases h
      · dsimp only at h
        by_cases hfol : e.flag.folder
        · rw [hfol] at h
          simp only [if_pos rfl] at h
          injection h with h
          rw [← h]
          exact ⟨rfl, fun hc => by rw [hdel] at hc; cases hc⟩
        · rw [Bool.not_eq_true] at hfol
          rw [hfol] at h
          simp only [if_neg (by decide : ¬false = true)] at h
          injection h with h
          rw [← h]
          exact ⟨rfl, fun hc => by rw [hdel] at hc; cases hc⟩

/-- Helper: one full per-edge step appends exactly the scanned edge to the
deletion queue, whatever its flags. -/
theorem unv_edge_del (g : PGraph) (inode : OPos) (ws : Workspace) (e : Edge)
    (ws₁ : Workspace) (h : unv_edge g inode ws e = some ws₁) :
    ws₁.del = ws.del ++ [e] ∧
    (e.flag.deleted = true →
      ws₁.up = ws.up ∧ ws₁.down = ws.down ∧ ws₁.files = ws.files) := by
  unfold unv_edge at h
  rcases hr : unv_edge_record g inode ws e with - | w <;> rw [hr] at h
  · cases h
  · injection h with h
    obtain ⟨hd, hrec⟩ := unv_edge_record_del g inode ws e w hr
    rw [← h]
    refine ⟨by rw [hd], fun hc => ?_⟩
    obtain ⟨h1, h2, h3⟩ := hrec hc
    exact ⟨h1, h2, h3⟩

/-- Counterexample to C4: an adjacent edge carrying `DELETED` *is* queued
for deletion by the `unapply_newvertex` edge scan (`ws.del.push(*e)` at
unrecord/mod.rs:319 is outside the `DELETED` test), contradicting the
claim that only non-`DELETED` edges are queued. -/
theorem unapply_newvertex_queues_deleted_cex :
    eDel.flag.deleted = true ∧
    unv_scan_edges gWit ⟨none, 0⟩ [eDel] {} = some { del := [eDel] } ∧
    eDel ∈ ({ del := [eDel] } : Workspace).del := by
  exact ⟨rfl, rfl, by decide⟩

/-- C4 (amended): the `unapply_newvertex` edge scan queues *every*
adjacent edge of the vertex for deletion, `DELETED` or not; the
non-`DELETED` condition governs only the recording of upper/lower
neighbours in `ws.up`/`ws.down` and of folder children in
`missing_context.files` (so a scan over only-`DELETED` edges records no
neighbours at all). -/
theorem unapply_newvertex_queue_all_edges (g : PGraph) (inode : OPos) :
    ∀ (es : List Edge) (ws ws' : Workspace),
      unv_scan_edges g inode es ws = some ws' →
      (∀ e, e ∈ ws'.del ↔ e ∈ ws.del ∨ e ∈ es) ∧
      ((∀ e ∈ es, e.flag.deleted = true) →
        ws'.up = ws.up ∧ ws'.down = ws.down ∧ ws'.files = ws.files) := by
  intro es
  induction es with
  | nil =>
    intro ws ws' h
    unfold unv_scan_edges at h
    injection h with h
    rw [← h]
    exact ⟨fun e => by simp, fun _ => ⟨rfl, rfl, rfl⟩⟩
  | cons e es ih =>
    intro ws ws' h
    unfold unv_scan_edges at h
    rcases h1 : unv_edge g inode ws e with - | ws₁ <;> rw [h1] at h
    · cases h
    · obtain ⟨hdel, hrec⟩ := unv_edge_del g inode ws e ws₁ h1
      obtain ⟨ihdel, ihrec⟩ := ih ws₁ ws' h
      constructor
      · intro x
        rw [ihdel x, hdel]
        simp [List.mem_append, or_assoc, or_comm, or_left_comm]
      · intro hall
        obtain ⟨h1u, h1d, h1f⟩ := hrec (hall e (by simp))
        obtain ⟨h2u, h2d, h2f⟩ := ihrec (fun x hx => hall x (by simp [hx]))
        exact ⟨h2u.trans h1u, h2d.trans h1d, h2f.trans h1f⟩

/-- Witness for C4: a two-edge scan (one deleted, one live parent edge)
queues both edges; a scan over a single deleted edge leaves the
neighbour maps untouched. -/
theorem unapply_newvertex_queue_all_edges_witness :
    (∀ e, e ∈ ({ del := [eDel, eParB], up := [(vWit, ⟨none, 0⟩)] } : Workspace).del ↔
      e ∈ ({} : Workspace).del ∨ e ∈ [eDel, eParB]) ∧
    ((∀ e ∈ [eDel], e.flag.deleted = true) →
      ({ del := [eDel] } : Workspace).up = ({} : Workspace).up ∧
      ({ del := [eDel] } : Workspace).down = ({} : Workspace).down ∧
      ({ del := [eDel] } : Workspace).files = ({} : Workspace).files) :=
  ⟨(unapply_newvertex_queue_all_edges gWit ⟨none, 0⟩ [eDel, eParB] {}
      { del := [eDel, eParB], up := [(vWit, ⟨none, 0⟩)] } (by decide)).1,
   (unapply_newvertex_queue_all_edges gWit ⟨none, 0⟩ [eDel] {}
      { del := [eDel] } (by decide)).2⟩

/-! ## C6: vertex admission and zombie tagging in `retrieve` -/

/-- Helper: the flag byte of any edge is at most 31. -/
theorem bits_le_31 (f : EdgeFlags) : f.bits ≤ 31 := by
  obtain ⟨b, fo, ps, d, pa⟩ := f
  cases b <;> cases fo <;> cases ps <;> cases d <;> cases pa <;> decide

/-- Helper: an edge whose flags contain `PARENT`, `DELETED` and `BLOCK`
has flag byte at least 25 = `PARENT|DELETED|BLOCK`. -/
theorem pdb_bits_ge (f : EdgeFlags) (hp : f.parent = true) (hd : f.deleted = true)
    (hb : f.block = true) : 25 ≤ f.bits := by
  obtain ⟨b, fo, ps, d, pa⟩ := f
  simp only [] at hp hd hb
  subst hp; subst hd; subst hb
  cases fo <;> cases ps <;> decide

/-- Helper: what `new_vertex` guarantees about an admitted vertex: it is
the `find_block` answer, it is alive, and its `ZOMBIE` flag is set iff
some adjacent edge carries all of `PARENT`, `DELETED` and `BLOCK`. -/
theorem new_vertex_spec (g : PGraph) (pos : Pos) (av : AliveVertex)
    (h : new_vertex g pos = some (some av)) :
    g.findBlock pos = some av.vertex ∧
    is_alive (g.adj av.vertex) av.vertex = true ∧
    (av.flags = 1 ↔ ∃ e ∈ g.adj av.vertex,
      e.flag.parent = true ∧ e.flag.deleted = true ∧ e.flag.block = true) := by
  unfold new_vertex at h
  rcases hfb : g.findBlock pos with - | vtx <;> rw [hfb] at h
  · cases h
  · dsimp only at h
    by_cases halive : is_alive (g.adj vtx) vtx = true
    · rw [halive] at h
      simp only [Bool.not_true, if_neg (by decide : ¬false = true)] at h
      injection h with h
      injection h with h
      subst h
      refine ⟨rfl, halive, ?_⟩
      dsimp only
      by_cases hzb : ((iter_adjacent (g.adj vtx) 25 31).any
          (fun e => e.flag.parent && e.flag.deleted && e.flag.block)) = true
      · rw [if_pos hzb]
        constructor
        · intro _
          rw [List.any_eq_true] at hzb
          obtain ⟨e, he, hpdb⟩ := hzb
          simp only [iter_adjacent, List.mem_filter, Bool.and_eq_true,
            decide_eq_true_eq] at he hpdb
          exact ⟨e, he.1, hpdb.1.1, hpdb.1.2, hpdb.2⟩
        · intro _; rfl
      · rw [if_neg hzb]
        constructor
        · intro h0; exact absurd h0 (by decide)
        · rintro ⟨e, he, hp, hd, hb⟩
          exfalso
          apply hzb
          rw [List.any_eq_true]
          refine ⟨e, ?_, ?_⟩
          · simp only [iter_adjacent, List.mem_filter, Bool.and_eq_true,
              decide_eq_true_eq]
            exact ⟨he, pdb_bits_ge e.flag hp hd hb, bits_le_31 e.flag⟩
          · simp [hp, hd, hb]
    · rw [Bool.not_eq_true] at halive
      rw [halive] at h
      simp only [Bool.not_false, if_pos rfl] at h
      injection h with h
      cases h

/-- C6: in `retrieve`, a destination reached on a cache miss is added to
the in-memory graph only if its vertex is alive (spec I5), and the added
vertex is tagged `ZOMBIE` (flag value 1) iff it has an adjacent edge
whose flags contain all of `PARENT`, `DELETED` and `BLOCK`; a dead vertex
is skipped and the graph is unchanged. -/
theorem retrieve_alive_and_zombie (g : PGraph) (rg : RGraph) (pos : Pos) :
    (∀ rg' i, retrieve_add g rg pos = some (rg', some i) →
      ∃ av, rg'.lines = rg.lines ++ [av] ∧ i = rg.lines.length ∧
        is_alive (g.adj av.vertex) av.vertex = true ∧
        (av.flags = 1 ↔ ∃ e ∈ g.adj av.vertex,
          e.flag.parent = true ∧ e.flag.deleted = true ∧ e.flag.block = true)) ∧
    (∀ v, g.findBlock pos = some v → is_alive (g.adj v) v = false →
      retrieve_add g rg pos = some (rg, none)) := by
  constructor
  · intro rg' i h
    unfold retrieve_add at h
    rcases hnv : new_vertex g pos with - | onv <;> rw [hnv] at h
    · cases h
    · rcases onv with - | av
      · injection h with h
        injection h with h1 h2
        cases h2
      · injection h with h
        injection h with h1 h2
        injection h2 with h2
        obtain ⟨-, halive, hzomb⟩ := new_vertex_spec g pos av hnv
        exact ⟨av, by rw [← h1], h2.symm, halive, hzomb⟩
  · intro v hfb hdead
    unfold retrieve_add new_vertex
    rw [hfb]
    dsimp only
    rw [hdead]
    rfl

/-- Witness for C6: in `gZom` the vertex `vWit` (alive through `eParB`,
zombie-marked through `ePDB`) is admitted with the `ZOMBIE` flag; in
`gDead` (only a deleted incoming edge) the vertex is skipped. -/
theorem retrieve_alive_and_zombie_witness :
    (∃ av, ({ lines := [avZom] } : RGraph).lines =
        ({ lines := [] } : RGraph).lines ++ [av] ∧
        (0 : Nat) = ({ lines := [] } : RGraph).lines.length ∧
        is_alive (gZom.adj av.vertex) av.vertex = true ∧
        (av.flags = 1 ↔ ∃ e ∈ gZom.adj av.vertex,
          e.flag.parent = true ∧ e.flag.deleted = true ∧ e.flag.block = true)) ∧
    retrieve_add gDead { lines := [] } ⟨1, 0⟩ = some ({ lines := [] }, none) :=
  ⟨(retrieve_alive_and_zombie gZom { lines := [] } ⟨1, 0⟩).1 { lines := [avZom] } 0 rfl,
   (retrieve_alive_and_zombie gDead { lines := [] } ⟨1, 0⟩).2 vWit rfl rfl⟩

/-! ## C3: return value and cross-channel purge of `unrecord` -/

/-- Helper: deleting all bindings of a key from an association list makes
its lookup `none`. -/
theorem lookupA_filter_self {α β : Type} [DecidableEq α] (l : List (α × β)) (k : α) :
    lookupA (l.filter (fun x => !decide (x.1 = k))) k = none := by
  have hfind : (l.filter (fun x => !decide (x.1 = k))).find?
      (fun x => decide (x.1 = k)) = none := by
    rw [List.find?_eq_none]
    intro x hx
    rw [List.mem_filter] at hx
    simpa using hx.2
  simp [lookupA, hfind]

/-- Helper: `del_revdeps` only removes entries. -/
theorem del_revdeps_subset (internal : List (Hash × ChangeId)) (cid : ChangeId) :
    ∀ (ds : List Hash) (rd rd' : List (ChangeId × ChangeId)),
      del_revdeps internal cid ds rd = some rd' → ∀ x ∈ rd', x ∈ rd := by
  intro ds
  induction ds with
  | nil =>
    intro rd rd' h x hx
    unfold del_revdeps at h
    injection h with h
    rw [← h] at hx
    exact hx
  | cons d ds ih =>
    intro rd rd' h x hx
    unfold del_revdeps at h
    rcases hl : lookupA internal d with - | di <;> rw [hl] at h
    · cases h
    · exact List.mem_of_mem_filter (ih _ _ h x hx)

/-- Helper: after `del_revdeps`, no dependency of the change still has a
`revdep` entry pointing back at it. -/
theorem del_revdeps_removes (internal : List (Hash × ChangeId)) (cid : ChangeId) :
    ∀ (ds : List Hash) (rd rd' : List (ChangeId × ChangeId)),
      del_revdeps internal cid ds rd = some rd' →
      ∀ d ∈ ds, ∀ di, lookupA internal d = some di → (di, cid) ∉ rd' := by
  intro ds
  induction ds with
  | nil =>
    intro rd rd' h d hd
    cases hd
  | cons d0 ds ih =>
    intro rd rd' h d hd di hdi
    unfold del_revdeps at h
    rcases hl : lookupA internal d0 with - | di0 <;> rw [hl] at h
    · cases h
    · rcases List.mem_cons.mp hd with heq | hmem
      · subst heq
        have hdi0 : di = di0 := by
          rw [hdi] at hl
          injection hl
        subst hdi0
        intro hmem'
        have hsub := del_revdeps_subset internal cid ds _ _ h _ hmem'
        rw [List.mem_filter] at hsub
        simp at hsub
      · exact ih _ _ h d hmem di hdi

/-- Helper: `unused_in_other_channels` is `false` exactly when some other
channel (of a different name) still has the change applied. -/
theorem unused_false_iff (st : State) (cid : ChangeId) :
    unused_in_other_channels st cid = false ↔
      ∃ br ∈ st.others, ¬br.name = st.current.name ∧
        (lookupA br.changes cid).isSome = true := by
  unfold unused_in_other_channels
  rw [← Bool.not_eq_true, List.all_eq_true]
  constructor
  · intro h
    rcases not_forall.mp h with ⟨br, hbr⟩
    rcases Classical.not_imp.mp hbr with ⟨hmem, hp⟩
    refine ⟨br, hmem, ?_, ?_⟩
    · intro hname
      exact hp (by simp [hname])
    · rcases hso : (lookupA br.changes cid).isSome with - | -
      · exfalso
        apply hp
        simp [Option.isNone_iff_eq_none, Option.isSome_iff_ne_none] at hso ⊢
        exact Or.inr hso
      · rfl
  · rintro ⟨br, hmem, hname, hsome⟩
    intro hall
    have := hall br hmem
    simp [Option.isNone_iff_eq_none] at this
    rcases this with hn | hn
    · exact hname hn
    · rw [Option.isSome_iff_ne_none] at hsome
      exact hsome hn

/-- C3: `unrecord(channel, changes, hash, salt)`: an absent `internal[hash]`
returns `false` without modifying any state; a successful unrecord
returns `true` iff some other channel still references the change; and
when the change is unused in every other channel it additionally purges
`dep[change_id]`, the `revdep` entries of its dependencies,
`external[change_id]` and `internal[hash]`, returning `false`. -/
theorem unrecord_return_and_purge (getChange : Hash → Option Change)
    (ua : Channel → Except UnrecordError Channel) (st : State) (hash : Hash) :
    (lookupA st.internal hash = none →
      unrecord getChange ua st hash = .ok (false, st)) ∧
    (∀ b st', unrecord getChange ua st hash = .ok (b, st') →
      (b = true ↔ ∃ cid, lookupA st.internal hash = some cid ∧
        ∃ br ∈ st.others, ¬br.name = st.current.name ∧
          (lookupA br.changes cid).isSome = true)) ∧
    (∀ cid change b st', lookupA st.internal hash = some cid →
      unused_in_other_channels st cid = true →
      getChange hash = some change →
      unrecord getChange ua st hash = .ok (b, st') →
      b = false ∧
      lookupA st'.internal hash = none ∧
      lookupA st'.external cid = none ∧
      (∀ x ∈ st'.dep, ¬x.1 = cid) ∧
      (∀ d ∈ change.dependencies, ∀ di,
        lookupA (st.internal.filter (fun x => !decide (x.1 = hash))) d = some di →
        (di, cid) ∉ st'.revdep)) := by
  refine ⟨fun h => ?_, fun b st' h => ?_, fun cid change b st' hli hun hgc h => ?_⟩
  · unfold unrecord
    rw [h]
  · rcases hli : lookupA st.internal hash with - | cid
    · unfold unrecord at h
      rw [hli] at h
      injection h with h
      injection h with hb hst
      constructor
      · intro hb'
        rw [← hb] at hb'
        cases hb'
      · rintro ⟨cid, hc, -⟩
        cases hc
    · unfold unrecord at h
      rw [hli] at h
      dsimp only at h
      rcases hdc : del_channel_changes st.revdep st.current cid with e | cur <;>
        rw [hdc] at h <;> dsimp only at h
      · cases h
      · rcases hgc : getChange hash with - | change <;> rw [hgc] at h <;>
          dsimp only at h
        · cases h
        · rcases hua : ua cur with e | cur' <;> rw [hua] at h <;> dsimp only at h
          · cases h
          · by_cases hun : unused_in_other_channels st cid = true
            · rw [if_pos hun] at h
              by_cases hrv : (lookupA st.revdep cid).isSome = true
              · rw [if_pos hrv] at h
                cases h
              · rw [if_neg hrv] at h
                rcases hdr : del_revdeps
                    (st.internal.filter (fun x => !decide (x.1 = hash))) cid
                    change.dependencies st.revdep with - | rd <;>
                  rw [hdr] at h
                · cases h
                · injection h with h
                  injection h with hb hst
                  constructor
                  · intro hb'
                    rw [← hb] at hb'
                    cases hb'
                  · rintro ⟨cid', hc, hex⟩
                    injection hc with hc
                    subst hc
                    rw [← Bool.not_eq_false] at hun
                    exact absurd ((unused_false_iff st cid).mpr hex) hun
            · rw [if_neg hun] at h
              injection h with h
              injection h with hb hst
              constructor
              · intro _
                rw [Bool.not_eq_true] at hun
                exact ⟨cid, rfl, (unused_false_iff st cid).mp hun⟩
              · intro _
                rw [← hb]
  · unfold unrecord at h
    rw [hli] at h
    dsimp only at h
    rcases hdc : del_channel_changes st.revdep st.current cid with e | cur <;>
      rw [hdc] at h <;> dsimp only at h
    · cases h
    · rw [hgc] at h
      dsimp only at h
      rcases hua : ua cur with e | cur' <;> rw [hua] at h <;> dsimp only at h
      · cases h
      · rw [if_pos hun] at h
        by_cases hrv : (lookupA st.revdep cid).isSome = true
        · rw [if_pos hrv] at h
          cases h
        · rw [if_neg hrv] at h
          rcases hdr : del_revdeps
              (st.internal.filter (fun x => !decide (x.1 = hash))) cid
              change.dependencies st.revdep with - | rd <;>
            rw [hdr] at h
          · cases h
          · injection h with h
            injection h with hb hst
            refine ⟨hb.symm, ?_, ?_, ?_, ?_⟩
            · rw [← hst]
              exact lookupA_filter_self st.internal hash
            · rw [← hst]
              exact lookupA_filter_self st.external cid
            · rw [← hst]
              intro x hx
              rw [List.mem_filter] at hx
              simpa using hx.2
            · intro d hd di hdi
              rw [← hst]
              exact del_revdeps_removes _ cid change.dependencies st.revdep rd hdr
                d hd di hdi

/-- Witness for C3: on `stU` (change `1`, hash `7`, applied only in the
current channel) unrecording hash `9` is a no-op returning `false`, and
unrecording hash `7` succeeds, purges the cross-channel maps and returns
`false`. -/
theorem unrecord_return_and_purge_witness :
    unrecord (fun _ => some { dependencies := [] }) (fun c => .ok c) stU 9 =
      .ok (false, stU) ∧
    (false = false ∧
      lookupA (State.internal
        { internal := [], external := [], dep := [], revdep := [],
          current := { name := "m", changes := [], revchanges := [], tags := [] },
          others := [] }) 7 = none ∧
      lookupA (State.external
        { internal := [], external := [], dep := [], revdep := [],
          current := { name := "m", changes := [], revchanges := [], tags := [] },
          others := [] }) 1 = none ∧
      (∀ x ∈ State.dep
        { internal := [], external := [], dep := [], revdep := [],
          current := { name := "m", changes := [], revchanges := [], tags := [] },
          others := [] }, ¬x.1 = 1) ∧
      (∀ d ∈ ({ dependencies := [] } : Change).dependencies, ∀ di,
        lookupA (stU.internal.filter (fun x => !decide (x.1 = 7))) d = some di →
        (di, 1) ∉ State.revdep
          { internal := [], external := [], dep := [], revdep := [],
            current := { name := "m", changes := [], revchanges := [], tags := [] },
            others := [] })) :=
  ⟨(unrecord_return_and_purge (fun _ => some { dependencies := [] })
      (fun c => .ok c) stU 9).1 rfl,
   (unrecord_return_and_purge (fun _ => some { dependencies := [] })
      (fun c => .ok c) stU 7).2.2 1 { dependencies := [] } false
      { internal := [], external := [], dep := [], revdep := [],
        current := { name := "m", changes := [], revchanges := [], tags := [] },
        others := [] } rfl rfl rfl (by decide)⟩

/-! ## C9: the zombie-collection traversals leave a clean workspace -/

/-- Helper: the `collect_zombies` edge loop never touches the tri-state
stack. -/
theorem cz_edges_zstack (g : PGraph) (cid : ChangeId) (v : V) :
    ∀ (es : List Edge) (ws ws' : Workspace),
      cz_edges g cid v es ws = some ws' → ws'.zombies_stack = ws.zombies_stack := by
  intro es
  induction es with
  | nil =>
    intro ws ws' h
    unfold cz_edges at h
    injection h with h
    rw [← h]
  | cons e es ih =>
    intro ws ws' h
    unfold cz_edges at h
    by_cases hc : e.introduced_by = cid ∨ (e.flag.parent = true ∧ ¬e.flag.block = true)
    · rw [if_pos hc] at h
      rcases hfb : (if e.flag.parent = true then g.findBlockEnd e.dest
          else g.findBlock e.dest) with - | w <;> rw [hfb] at h
      · cases h
      · dsimp only at h
        rw [ih _ _ h]
        by_cases hi : e.introduced_by = cid <;> simp [hi]
    · rw [if_neg hc] at h
      exact ih _ _ h

/-- Helper: the `collect_zombies` DFS loop never touches the tri-state
stack. -/
theorem cz_loop_zstack (g : PGraph) (cid : ChangeId) :
    ∀ (fuel : Nat) (ws ws' : Workspace),
      cz_loop g cid fuel ws = some ws' → ws'.zombies_stack = ws.zombies_stack := by
  intro fuel
  induction fuel with
  | zero =>
    intro ws ws' h
    cases h
  | succ n ih =>
    intro ws ws' h
    unfold cz_loop at h
    rcases hs : ws.stack with - | ⟨v, rest⟩ <;> rw [hs] at h
    · injection h with h
      rw [← h]
    · dsimp only at h
      by_cases hp : v ∈ ws.parents
      · rw [if_pos hp] at h
        exact (ih _ _ h).trans rfl
      · rw [if_neg hp] at h
        rcases hce : cz_edges g cid v (g.adj v)
            { ws with stack := rest, parents := v :: ws.parents } with - | ws₂ <;>
          rw [hce] at h
        · cases h
        · exact (ih _ _ h).trans ((cz_edges_zstack g cid v _ _ _ hce).trans rfl)

/-- Helper: the `collect_zombies_up` edge loop never touches the tri-state
stack. -/
theorem czu_edges_zstack (g : PGraph) (v : V) (del_len stack_len : Nat) :
    ∀ (es : List Edge) (ws ws' : Workspace),
      czu_edges g v del_len stack_len es ws = some ws' →
      ws'.zombies_stack = ws.zombies_stack := by
  intro es
  induction es with
  | nil =>
    intro ws ws' h
    unfold czu_edges at h
    injection h with h
    rw [← h]
  | cons e es ih =>
    intro ws ws' h
    unfold czu_edges at h
    by_cases hpar : e.flag.parent = true
    · rw [if_pos hpar] at h
      by_cases hfol : (!e.flag.folder) = true
      · rw [if_pos hfol] at h
        cases h
      · rw [if_neg hfol] at h
        by_cases hbrk : (!e.flag.pseudo && !e.flag.deleted) = true
        · rw [if_pos hbrk] at h
          injection h with h
          rw [← h]
        · rw [if_neg hbrk] at h
          rcases hfb : g.findBlockEnd e.dest with - | x <;> rw [hfb] at h <;>
            dsimp only at h
          · rw [ih _ _ h]
            by_cases hps : e.flag.pseudo = true <;> simp [hps]
          · rw [ih _ _ h]
            by_cases hps : e.flag.pseudo = true <;> simp [hps]
    · rw [if_neg hpar] at h
      exact ih _ _ h

/-- Helper: the `collect_zombies_up` loop never touches the tri-state
stack. -/
theorem czu_loop_zstack (g : PGraph) :
    ∀ (fuel : Nat) (ws ws' : Workspace),
      czu_loop g fuel ws = some ws' → ws'.zombies_stack = ws.zombies_stack := by
  intro fuel
  induction fuel with
  | zero =>
    intro ws ws' h
    cases h
  | succ n ih =>
    intro ws ws' h
    unfold czu_loop at h
    rcases hs : ws.stack with - | ⟨v, rest⟩ <;> rw [hs] at h
    · injection h with h
      rw [← h]
    · dsimp only at h
      by_cases hp : v ∈ ws.parents
      · rw [if_pos hp] at h
        exact (ih _ _ h).trans rfl
      · rw [if_neg hp] at h
        rcases hce : czu_edges g v ws.del_edges.length rest.length (g.adj v)
            { ws with stack := rest, parents := v :: ws.parents } with - | ws₂ <;>
          rw [hce] at h
        · cases h
        · exact (ih _ _ h).trans ((czu_edges_zstack g v _ _ _ _ _ hce).trans rfl)

/-- Helper: a successful `collect_zombies_up` always returns with `stack`
and `parents` cleared, and with the tri-state stack it was given. -/
theorem collect_zombies_up_clears (g : PGraph) (to_ : Pos) (fuel : Nat)
    (ws ws' : Workspace) (h : collect_zombies_up g to_ fuel ws = some ws') :
    ws'.stack = [] ∧ ws'.parents = [] ∧ ws'.zombies_stack = ws.zombies_stack := by
  unfold collect_zombies_up at h
  rcases hfb : g.findBlock to_ with - | t <;> rw [hfb] at h <;> dsimp only at h
  · rcases hl : czu_loop g fuel ws with - | ws₁ <;> rw [hl] at h
    · cases h
    · injection h with h
      rw [← h]
      exact ⟨rfl, rfl, czu_loop_zstack g fuel ws ws₁ hl⟩
  · rcases hl : czu_loop g fuel { ws with stack := t :: ws.stack } with - | ws₁ <;>
      rw [hl] at h
    · cases h
    · injection h with h
      rw [← h]
      exact ⟨rfl, rfl,
        (czu_loop_zstack g fuel { ws with stack := t :: ws.stack } ws₁ hl).trans rfl⟩

/-- Helper: the alive-children loop of `collect_zombies_pseudo` never
touches `stack`. -/
theorem czp_children_stack (g : PGraph) (v : V) :
    ∀ (es : List Edge) (ws : Workspace) (b : Bool) (ws' : Workspace) (b' : Bool),
      czp_children g v es ws b = some (ws', b') → ws'.stack = ws.stack := by
  intro es
  induction es with
  | nil =>
    intro ws b ws' b' h
    unfold czp_children at h
    injection h with h
    injection h with h1 h2
    rw [← h1]
  | cons e es ih =>
    intro ws b ws' b' h
    unfold czp_children at h
    by_cases hskip : (e.flag.parent || e.flag.deleted) = true
    · rw [if_pos hskip] at h
      exact (ih _ _ _ _ h).trans rfl
    · rw [if_neg hskip] at h
      rcases hfb : g.findBlock e.dest with - | x <;> rw [hfb] at h
      · cases h
      · dsimp only at h
        by_cases hal : is_alive (g.adj x) x = true
        · rw [if_pos hal] at h
          exact (ih _ _ _ _ h).trans rfl
        · rw [if_neg hal] at h
          by_cases hfst : b = true
          · rw [if_pos hfst] at h
            exact (ih _ _ _ _ h).trans rfl
          · rw [if_neg hfst] at h
            exact (ih _ _ _ _ h).trans rfl

/-- Helper: the tri-state loop of `collect_zombies_pseudo` keeps `stack`
empty (the only writer is its `collect_zombies_up` call, which clears
it). -/
theorem czp_loop_stack (g : PGraph) (to_ : Pos) (fuel_up : Nat) :
    ∀ (fuel : Nat) (ws ws' : Workspace),
      czp_loop g to_ fuel_up fuel ws = some ws' → ws.stack = [] →
      ws'.stack = [] := by
  intro fuel
  induction fuel with
  | zero =>
    intro ws ws' h
    cases h
  | succ n ih =>
    intro ws ws' h hst
    unfold czp_loop at h
    rcases hs : ws.zombies_stack with - | ⟨⟨v, alive, on_path⟩, rest⟩ <;> rw [hs] at h
    · injection h with h
      rw [← h]
      exact hst
    · dsimp only at h
      by_cases hop : on_path = true
      · rw [if_pos hop] at h
        by_cases hal : alive = true
        · rw [if_pos hal] at h
          exact ih _ _ h hst
        · rw [if_neg hal] at h
          by_cases hemp : rest.isEmpty = true
          · rw [if_pos hemp] at h
            split at h
            · cases h
            · next ws₂ heq =>
                exact ih _ _ h (collect_zombies_up_clears g to_ fuel_up _ _ heq).1
          · rw [if_neg hemp] at h
            exact ih _ _ h hst
      · rw [if_neg hop] at h
        by_cases hal : alive = true
        · rw [if_pos hal] at h
          cases h
        · rw [if_neg hal] at h
          by_cases hp : v ∈ ws.parents
          · rw [if_pos hp] at h
            exact ih _ _ h hst
          · rw [if_neg hp] at h
            rcases hcc : czp_children g v (iter_alive_children (g.adj v))
                { ws with zombies_stack := rest, parents := v :: ws.parents }
                true with - | ⟨ws₂, b₂⟩ <;> rw [hcc] at h
            · cases h
            · dsimp only at h
              have := czp_children_stack g v _ _ _ _ _ hcc
              exact ih _ _ h (by rw [this]; exact hst)

/-- C9: every zombie-collection traversal of the unrecord workspace —
`collect_zombies`, `collect_zombies_pseudo` and `collect_zombies_up` —
leaves `ws.stack`, `ws.parents` and `ws.zombies_stack` empty on
successful return (given, for the fields a traversal never writes, that
they start empty, as they do between the passes of `unapply`). -/
theorem collect_zombies_clean_workspace (g : PGraph) (change_id : ChangeId)
    (to_ : Pos) (fuel_up fuel : Nat) (ws : Workspace) :
    (∀ ws', collect_zombies g change_id to_ fuel ws = some ws' →
      ws.zombies_stack = [] →
      ws'.stack = [] ∧ ws'.parents = [] ∧ ws'.zombies_stack = []) ∧
    (∀ ws', collect_zombies_pseudo g to_ fuel_up fuel ws = some ws' →
      ws.stack = [] →
      ws'.stack = [] ∧ ws'.parents = [] ∧ ws'.zombies_stack = []) ∧
    (∀ ws', collect_zombies_up g to_ fuel ws = some ws' →
      ws.zombies_stack = [] →
      ws'.stack = [] ∧ ws'.parents = [] ∧ ws'.zombies_stack = []) := by
  refine ⟨fun ws' h hz => ?_, fun ws' h hst => ?_, fun ws' h hz => ?_⟩
  · unfold collect_zombies at h
    rcases hfb : g.findBlock to_ with - | v0 <;> rw [hfb] at h
    · cases h
    · dsimp only at h
      rcases hl : cz_loop g change_id fuel { ws with stack := v0 :: ws.stack }
          with - | ws₁ <;> rw [hl] at h
      · cases h
      · injection h with h
        rw [← h]
        refine ⟨rfl, rfl, ?_⟩
        rw [cz_loop_zstack g change_id fuel _ ws₁ hl]
        exact hz
  · unfold collect_zombies_pseudo at h
    rcases hfb : g.findBlock to_ with - | t <;> rw [hfb] at h <;> dsimp only at h
    · rcases hl : czp_loop g to_ fuel_up fuel ws with - | ws₁ <;> rw [hl] at h
      · cases h
      · injection h with h
        rw [← h]
        exact ⟨czp_loop_stack g to_ fuel_up fuel ws ws₁ hl hst, rfl, rfl⟩
    · rcases hl : czp_loop g to_ fuel_up fuel
          { ws with zombies_stack := (t, false, false) :: ws.zombies_stack }
          with - | ws₁ <;> rw [hl] at h
      · cases h
      · injection h with h
        rw [← h]
        exact ⟨czp_loop_stack g to_ fuel_up fuel _ ws₁ hl hst, rfl, rfl⟩
  · obtain ⟨h1, h2, h3⟩ := collect_zombies_up_clears g to_ fuel ws ws' h
    exact ⟨h1, h2, h3.trans hz⟩

/-- Witness for C9: the three traversals run to completion on a one-vertex
graph with empty adjacency, starting from the default workspace, and
return it clean. -/
theorem collect_zombies_clean_workspace_witness :
    (({} : Workspace).stack = [] ∧ ({} : Workspace).parents = [] ∧
      ({} : Workspace).zombies_stack = []) ∧
    (({} : Workspace).stack = [] ∧ ({} : Workspace).parents = [] ∧
      ({} : Workspace).zombies_stack = []) ∧
    (({} : Workspace).stack = [] ∧ ({} : Workspace).parents = [] ∧
      ({} : Workspace).zombies_stack = []) :=
  ⟨(collect_zombies_clean_workspace gWit 1 ⟨1, 0⟩ 2 2 {}).1 {} (by decide) rfl,
   (collect_zombies_clean_workspace gWit 1 ⟨1, 0⟩ 2 2 {}).2.1 {} (by decide) rfl,
   (collect_zombies_clean_workspace gWit 1 ⟨1, 0⟩ 2 2 {}).2.2 {} (by decide) rfl⟩

end Pijul
